import Mathlib

/-!
Shallow embedding of the smart_pub dependency engine: the version
comparator (`PubApiService.isVersionOutdated`), the constraint reducer
(`PubspecAnalyzer.extractVersionFromConstraint`), the update check
(`PubApiService.checkForUpdates`), the TTL cache (`CacheService`), the
manifest accessor (`WorkspaceService.addDependency` and friends), the
line scanner (`PubspecAnalyzer.findPackageRange`), the conflict stub
(`DependencyResolver.detectConflicts`) and the fail-soft registry client
(`PubApiService.searchPackages` / `getPackageDetails`).  Strings are
modelled on `List Char`; times are milliseconds as `Nat`.
-/

/-- Characters kept by the regex replace `[^0-9.]` in
`isVersionOutdated`: decimal digits and the dot survive. -/
def keepDigitDot (c : Char) : Bool := c.isDigit || c == '.'

/-- The cleaned character list: `version.replace(/[^0-9.]/g, '')`. -/
def cleanVersionChars (s : String) : List Char := s.data.filter keepDigitDot

/-- JS `String.prototype.split` with a single-character separator,
on character lists (`''.split(sep)` yields `[""]`). -/
def splitOnChar (sep : Char) : List Char → List (List Char)
  | [] => [[]]
  | c :: cs =>
    let rest := splitOnChar sep cs
    if c == sep then [] :: rest
    else
      match rest with
      | [] => [[c]]
      | g :: gs => (c :: g) :: gs

/-- JS `Number` applied to a component of the cleaned version string:
the component holds only decimal digits, and the empty component parses
to 0 (as `Number('')` does). -/
def toNatDigits (cs : List Char) : Nat :=
  cs.foldl (fun n c => n * 10 + (c.toNat - '0'.toNat)) 0

/-- Tail of the comparison loop of `isVersionOutdated` once the current
parts are exhausted: the current component reads as 0 at every
remaining position. -/
def versionLoopNil : List Nat → Bool
  | [] => false
  | l :: ls =>
    if l > 0 then true else if 0 > l then false else versionLoopNil ls

/-- The index loop of `isVersionOutdated`: positions are compared left
to right up to the longer list, a missing component (`parts[i] || 0`)
read as 0; true on the first position where latest exceeds current,
false on the first position where current exceeds latest. -/
def versionLoop : List Nat → List Nat → Bool
  | [], lat => versionLoopNil lat
  | c :: cs, [] =>
    if 0 > c then true else if c > 0 then false else versionLoop cs []
  | c :: cs, l :: ls =>
    if l > c then true else if c > l then false else versionLoop cs ls

/-- `PubApiService.isVersionOutdated(currentVersion, latestVersion)`:
empty inputs short-circuit to false, both strings are stripped to
digits and dots, split on dots, parsed as numbers and compared
positionally. -/
def isVersionOutdated (currentVersion latestVersion : String) : Bool :=
  if currentVersion == "" || latestVersion == "" then false
  else
    if (cleanVersionChars currentVersion).isEmpty
        || (cleanVersionChars latestVersion).isEmpty then false
    else
      versionLoop ((splitOnChar '.' (cleanVersionChars currentVersion)).map toNatDigits)
                  ((splitOnChar '.' (cleanVersionChars latestVersion)).map toNatDigits)

/-- First-difference comparison, written from the specification text:
true exactly when some position (missing components read as 0) has
latest strictly above declared while every earlier position agrees. -/
def firstDiffLt (cur lat : List Nat) : Bool :=
  (List.range (max cur.length lat.length)).any fun i =>
    decide (cur.getD i 0 < lat.getD i 0) &&
    (List.range i).all fun j => cur.getD j 0 == lat.getD j 0

/-- Reference comparator, written from the specification text: strip
every character except digits and dots, split on dots, missing
component is 0, true at the first position where latest exceeds
declared, false otherwise, and false when either input is empty or
strips to empty. -/
def refOutdated (declared latest : String) : Bool :=
  if declared == "" || latest == "" then false
  else
    if (cleanVersionChars declared).isEmpty
        || (cleanVersionChars latest).isEmpty then false
    else
      firstDiffLt ((splitOnChar '.' (cleanVersionChars declared)).map toNatDigits)
                  ((splitOnChar '.' (cleanVersionChars latest)).map toNatDigits)

lemma versionLoop_nil_right (cur : List Nat) : versionLoop cur [] = false := by
  induction cur with
  | nil => rfl
  | cons c cs ih =>
    simp only [versionLoop]
    split
    · omega
    · split
      · rfl
      · exact ih

lemma any_range_succ (f : Nat → Bool) (n : Nat) :
    (List.range (n + 1)).any f = (f 0 || (List.range n).any fun k => f (k + 1)) := by
  rw [List.range_succ_eq_map]
  simp [Function.comp_def]

lemma all_range_succ (f : Nat → Bool) (n : Nat) :
    (List.range (n + 1)).all f = (f 0 && (List.range n).all fun k => f (k + 1)) := by
  rw [List.range_succ_eq_map]
  simp [Function.comp_def]

lemma firstDiffLt_cons_nil (c : Nat) (cs : List Nat) :
    firstDiffLt (c :: cs) [] = false := by
  simp [firstDiffLt]

lemma firstDiffLt_cons_cons (c l : Nat) (cs ls : List Nat) :
    firstDiffLt (c :: cs) (l :: ls)
      = (decide (c < l) || ((c == l) && firstDiffLt cs ls)) := by
  unfold firstDiffLt
  have hmax : max (c :: cs).length (l :: ls).length = max cs.length ls.length + 1 := by
    simp [Nat.succ_max_succ]
  rw [hmax, any_range_succ]
  by_cases h : c = l
  · subst h
    simp [all_range_succ]
  · have hb : (c == l) = false := by simp [h]
    simp [all_range_succ, hb]

lemma firstDiffLt_nil_cons (l : Nat) (ls : List Nat) :
    firstDiffLt [] (l :: ls)
      = (decide (0 < l) || ((0 == l) && firstDiffLt [] ls)) := by
  unfold firstDiffLt
  have hmax : max ([] : List Nat).length (l :: ls).length = max ([] : List Nat).length ls.length + 1 := by
    simp
  rw [hmax, any_range_succ]
  by_cases h : l = 0
  · subst h
    simp [all_range_succ]
  · have hb : ((0 : Nat) == l) = false := by simp [Ne.symm h]
    simp [all_range_succ, hb]

lemma versionLoopNil_eq (lat : List Nat) : versionLoopNil lat = firstDiffLt [] lat := by
  induction lat with
  | nil => rfl
  | cons l ls ih =>
    rw [firstDiffLt_nil_cons, ← ih]
    simp only [versionLoopNil]
    rcases Nat.eq_zero_or_pos l with h | h
    · subst h
      simp
    · have hb : ((0 : Nat) == l) = false := by
        simp [Nat.ne_of_lt h]
      simp [h, hb, Nat.lt_irrefl]

/-- The positional loop of the code computes exactly the
first-difference comparison of the specification. -/
lemma versionLoop_eq_firstDiffLt (cur lat : List Nat) :
    versionLoop cur lat = firstDiffLt cur lat := by
  induction cur generalizing lat with
  | nil => exact versionLoopNil_eq lat
  | cons c cs ih =>
    cases lat with
    | nil => rw [versionLoop_nil_right, firstDiffLt_cons_nil]
    | cons l ls =>
      rw [firstDiffLt_cons_cons, ← ih]
      simp only [versionLoop]
      rcases Nat.lt_trichotomy c l with h | h | h
      · simp [h, Nat.lt_asymm h, Nat.ne_of_lt h]
      · subst h
        simp [Nat.lt_irrefl]
      · have hne : (c == l) = false := by simp [Nat.ne_of_gt h]
        simp [h, Nat.lt_asymm h, hne, Nat.not_lt_of_gt h]

/-- C1: `isVersionOutdated` agrees with the specification's reference
algorithm on every pair of strings (strip to digits and dots, split on
dots, positional numeric comparison with missing components as 0,
false on empty or all-stripped input), and returns the stated values
on the spec's worked examples. -/
theorem C1_isVersionOutdated_matches_reference :
    (∀ declared latest : String,
      isVersionOutdated declared latest = refOutdated declared latest) ∧
    isVersionOutdated "1.2.3" "1.3.0" = true ∧
    isVersionOutdated "2.0.0" "1.9.9" = false ∧
    isVersionOutdated "1.0" "1.0.0" = false ∧
    isVersionOutdated "" "1.0.0" = false ∧
    isVersionOutdated "1.0.0" "" = false := by
  refine ⟨fun declared latest => ?_, by decide, by decide, by decide, by decide, by decide⟩
  unfold isVersionOutdated refOutdated
  split
  · rfl
  · split
    · rfl
    · exact versionLoop_eq_firstDiffLt _ _

/-- `PubspecAnalyzer.extractVersionFromConstraint`'s regex
`/[\d]+\.[\d]+\.[\d]+/` attempted at the start of the character list:
a maximal nonempty digit run, a dot, a second run, a dot, a third run.
For this pattern maximal munch coincides with the regex engine's
backtracking search. -/
def matchVersionAt (cs : List Char) : Option (List Char) :=
  let d1 := cs.takeWhile Char.isDigit
  if d1.isEmpty then none
  else
    match cs.dropWhile Char.isDigit with
    | '.' :: r2 =>
      let d2 := r2.takeWhile Char.isDigit
      if d2.isEmpty then none
      else
        match r2.dropWhile Char.isDigit with
        | '.' :: r4 =>
          let d3 := r4.takeWhile Char.isDigit
          if d3.isEmpty then none
          else some (d1 ++ '.' :: d2 ++ '.' :: d3)
        | _ => none
    | _ => none

/-- Leftmost match of the version regex: attempts start at every index
from the left, as `String.prototype.match` does. -/
def findVersionMatch : List Char → Option (List Char)
  | [] => none
  | c :: cs =>
    match matchVersionAt (c :: cs) with
    | some m => some m
    | none => findVersionMatch cs

/-- Whitespace for JS `String.prototype.trim` and the `\s` class
(ASCII range plus no-break space). -/
def jsIsSpace (c : Char) : Bool :=
  c == ' ' || c == '\t' || c == '\n' || c == '\x0d' || c == '\x0b' || c == '\x0c' || c == '\xa0'

/-- JS `String.prototype.trim` on character lists. -/
def jsTrimList (cs : List Char) : List Char :=
  ((cs.dropWhile jsIsSpace).reverse.dropWhile jsIsSpace).reverse

/-- `PubspecAnalyzer.extractVersionFromConstraint`: empty constraint
falls back to `1.0.0`; otherwise the first embedded `X.Y.Z` substring,
else the trimmed constraint, else the `1.0.0` fallback. -/
def extractVersionFromConstraint (constraint : String) : String :=
  if constraint == "" then "1.0.0"
  else
    match findVersionMatch constraint.data with
    | some m => String.mk m
    | none =>
      if (jsTrimList constraint.data).isEmpty then "1.0.0"
      else String.mk (jsTrimList constraint.data)

/-- `PubApiService.checkForUpdates(dependencies)`: for each declared
pair the latest version is fetched (modelled by the `latest` oracle)
and the pair is reported exactly when the raw declared constraint is
outdated against it.  The concurrent fan-out only affects completion
order, not membership. -/
def checkForUpdates (dependencies : List (String × String))
    (latest : String → Option String) : List (String × String) :=
  dependencies.filterMap fun p =>
    match latest p.1 with
    | some lv => if isVersionOutdated p.2 lv then some (p.1, lv) else none
    | none => none

/-- C2 counterexample: on the declared constraint
`>=1.0.0 <2.0.0` with latest `1.0.1`, the check used by
`checkForUpdates` (the raw constraint fed to `isVersionOutdated`)
reports not outdated, while reducing to the first embedded `X.Y.Z`
substring `1.0.0` first would report outdated — so `checkForUpdates`
does not perform that reduction. -/
theorem C2_counterexample_no_reduction :
    extractVersionFromConstraint ">=1.0.0 <2.0.0" = "1.0.0" ∧
    isVersionOutdated (extractVersionFromConstraint ">=1.0.0 <2.0.0") "1.0.1" = true ∧
    isVersionOutdated ">=1.0.0 <2.0.0" "1.0.1" = false ∧
    checkForUpdates [("pkg", ">=1.0.0 <2.0.0")] (fun _ => some "1.0.1") = [] := by
  refine ⟨by decide, by decide, by decide, ?_⟩
  simp [checkForUpdates]
  decide

/-- C2 amended: `checkForUpdates` feeds the raw declared constraint to
the numeric comparison, which strips every character except digits and
dots from the whole constraint — so `>=1.0.0 <2.0.0` is cleaned to the
concatenation `1.0.02.0.0`, not reduced to its first embedded `X.Y.Z`
substring (that reduction, `extractVersionFromConstraint`, is applied
only in the pubspec-analyzer path). -/
theorem C2_checkForUpdates_uses_raw_constraint :
    (∀ (deps : List (String × String)) (latest : String → Option String) (n lv : String),
      (n, lv) ∈ checkForUpdates deps latest ↔
        ∃ c, (n, c) ∈ deps ∧ latest n = some lv ∧ isVersionOutdated c lv = true) ∧
    cleanVersionChars ">=1.0.0 <2.0.0" = "1.0.02.0.0".data := by
  refine ⟨fun deps latest n lv => ?_, by decide⟩
  rw [checkForUpdates, List.mem_filterMap]
  constructor
  · rintro ⟨⟨m, c⟩, hmem, hf⟩
    cases h : latest m with
    | none => simp [h] at hf
    | some l =>
      simp only [h] at hf
      split at hf
      · rename_i hout
        obtain ⟨rfl, rfl⟩ : m = n ∧ l = lv := by
          simpa using hf
        exact ⟨c, hmem, h, hout⟩
      · exact absurd hf (by simp)
  · rintro ⟨c, hmem, hl, hout⟩
    exact ⟨(n, c), hmem, by simp [hl, hout]⟩

/-- `DependencyConflict` record of `DependencyResolver`. -/
structure DependencyConflict where
  packageName : String
  conflictingVersions : List String
  suggestedResolution : String
  reason : String
deriving DecidableEq

/-- `DependencyResolver.detectConflicts(projectPath)`: builds and
returns the hardcoded common-conflict list without reading anything
from the project directory. -/
def detectConflicts (projectPath : String) : List DependencyConflict :=
  [{ packageName := "flutter_lints",
     conflictingVersions := ["^6.0.0", "^5.0.0"],
     suggestedResolution := "^5.0.0",
     reason := "Incompatible version ranges between direct and transitive dependencies" }]

/-- C8: `detectConflicts` returns the same constant hardcoded list (a
single `flutter_lints` conflict suggesting `^5.0.0`) for every input
path; its output does not depend on the manifest in any way. -/
theorem C8_detectConflicts_constant :
    (∀ p q : String, detectConflicts p = detectConflicts q) ∧
    (∀ p : String, detectConflicts p =
      [⟨"flutter_lints", ["^6.0.0", "^5.0.0"], "^5.0.0",
        "Incompatible version ranges between direct and transitive dependencies"⟩]) := by
  exact ⟨fun p q => rfl, fun p => rfl⟩

/-- `CacheEntry<T>` of the cache service: payload, creation time and
absolute expiry, both in milliseconds. -/
structure CacheEntry (α : Type) where
  data : α
  timestamp : Nat
  expiresAt : Nat
deriving DecidableEq

/-- The in-memory `Map` of `CacheService`, as an association list in
insertion order. -/
abbrev Cache (α : Type) : Type := List (String × CacheEntry α)

/-- `Map.prototype.get` (and JS object key read) on a string-keyed
association list: the value at the first matching key. -/
def lookupKey {β : Type} (c : List (String × β)) (key : String) : Option β :=
  (List.find? (fun p => p.1 == key) c).map Prod.snd

/-- `Map.prototype.set` (and JS object key assignment): replaces the
entry in place when the key is present, otherwise appends. -/
def mapSet {β : Type} : List (String × β) → String → β → List (String × β)
  | [], k, v => [(k, v)]
  | (a, b) :: m, k, v =>
    if a == k then (k, v) :: (m.map fun p => if p.1 == k then (k, v) else p)
    else (a, b) :: mapSet m k v

/-- `Map.prototype.delete`. -/
def mapDelete {β : Type} (c : List (String × β)) (key : String) : List (String × β) :=
  c.filter fun p => !(p.1 == key)

/-- `CacheService.get(key)` at current time `now`: absent gives null;
an entry past its expiry is deleted from the map and null is returned;
otherwise the stored payload.  The returned pair is (result, map after
the call); the storage flush does not change the entries. -/
def CacheService.get {α : Type} (now : Nat) (c : Cache α) (key : String) :
    Option α × Cache α :=
  match lookupKey c key with
  | none => (none, c)
  | some e => if now > e.expiresAt then (none, mapDelete c key) else (some e.data, c)

/-- JS `expirationSeconds || defaultExpiration`: an absent argument and
the falsy 0 both select the configured default. -/
def effectiveExpiration (expirationSeconds : Option Nat) (defaultExpiration : Nat) : Nat :=
  match expirationSeconds with
  | some e => if e = 0 then defaultExpiration else e
  | none => defaultExpiration

/-- `CacheService.set(key, data, expirationSeconds?)` at current time
`now` with configured default TTL `defaultExpiration` (3600 when the
setting is absent): stores the entry with
`expiresAt = now + expiration * 1000`. -/
def CacheService.set {α : Type} (now defaultExpiration : Nat) (c : Cache α)
    (key : String) (data : α) (expirationSeconds : Option Nat) : Cache α :=
  mapSet c key
    { data := data
      timestamp := now
      expiresAt := now + effectiveExpiration expirationSeconds defaultExpiration * 1000 }

/-- `CacheService.has(key)`: literally `get(key) !== null`, including
get's lazy eviction side effect. -/
def CacheService.has {α : Type} (now : Nat) (c : Cache α) (key : String) :
    Bool × Cache α :=
  ((CacheService.get now c key).1.isSome, (CacheService.get now c key).2)

/-- `saveCacheToStorage`: `Object.fromEntries` on a string-keyed map
followed by `Object.entries` on load is the identity on the entry
list, so the persisted snapshot is the entry list itself. -/
def saveCacheToStorage {α : Type} (c : Cache α) : Cache α := c

/-- `cleanExpiredEntries` at time `now`: every entry with
`now > expiresAt` is deleted. -/
def cleanExpiredEntries {α : Type} (now : Nat) (c : Cache α) : Cache α :=
  c.filter fun p => !(now > p.2.expiresAt)

/-- `loadCacheFromStorage` run by the constructor: the stored snapshot
becomes the map and is swept for already-expired entries before first
use. -/
def loadCacheFromStorage {α : Type} (now : Nat) (stored : Cache α) : Cache α :=
  cleanExpiredEntries now stored

lemma lookupKey_mapDelete {β : Type} (c : List (String × β)) (key : String) :
    lookupKey (mapDelete c key) key = none := by
  have hnone : List.find? (fun p => p.1 == key) (mapDelete c key) = none := by
    rw [List.find?_eq_none]
    intro p hp
    rcases List.mem_filter.mp hp with ⟨_, hkeep⟩
    simpa using hkeep
  unfold lookupKey
  rw [hnone]
  rfl

lemma lookupKey_mapSet_self {β : Type} (c : List (String × β)) (k : String) (v : β) :
    lookupKey (mapSet c k v) k = some v := by
  induction c with
  | nil => simp [mapSet, lookupKey]
  | cons p m ih =>
    obtain ⟨a, b⟩ := p
    by_cases h : a = k
    · subst h
      simp [mapSet, lookupKey]
    · have hb : (a == k) = false := by simp [h]
      simp only [mapSet, hb, Bool.false_eq_true, if_false]
      unfold lookupKey at ih ⊢
      simp only [List.find?_cons, hb]
      exact ih

lemma mem_mapSet_key {β : Type} (c : List (String × β)) (k : String) (v : β) :
    ∀ p ∈ mapSet c k v, p.1 = k → p = (k, v) := by
  induction c with
  | nil =>
    intro p hp _
    simpa [mapSet] using hp
  | cons q m ih =>
    obtain ⟨a, b⟩ := q
    intro p hp hk
    by_cases h : a = k
    · subst h
      have hab : (a == a) = true := by simp
      simp only [mapSet, hab, if_true, List.mem_cons] at hp
      rcases hp with rfl | hp
      · rfl
      · rcases List.mem_map.mp hp with ⟨q, _, hqe⟩
        by_cases h2 : q.1 = a
        · have hqb : (q.1 == a) = true := by simp [h2]
          rw [hqb] at hqe
          exact hqe.symm
        · have hqb : (q.1 == a) = false := by simp [h2]
          rw [hqb] at hqe
          simp only [if_false, Bool.false_eq_true] at hqe
          subst hqe
          exact absurd hk h2
    · have hb : (a == k) = false := by simp [h]
      simp only [mapSet, hb, Bool.false_eq_true, if_false, List.mem_cons] at hp
      rcases hp with rfl | hp
      · exact absurd hk h
      · exact ih p hp hk

lemma mem_mapSet_self {β : Type} (c : List (String × β)) (k : String) (v : β) :
    (k, v) ∈ mapSet c k v := by
  induction c with
  | nil => simp [mapSet]
  | cons q m ih =>
    obtain ⟨a, b⟩ := q
    by_cases h : a = k
    · subst h
      simp [mapSet]
    · have hb : (a == k) = false := by simp [h]
      simp only [mapSet, hb, Bool.false_eq_true, if_false, List.mem_cons]
      exact Or.inr ih

lemma lookupKey_filter_of_unique {β : Type} (c : List (String × β)) (k : String)
    (v : β) (q : String × β → Bool)
    (huniq : ∀ p ∈ c, p.1 = k → p = (k, v)) (hmem : (k, v) ∈ c)
    (hkeep : q (k, v) = true) :
    lookupKey (c.filter q) k = some v := by
  induction c with
  | nil => cases hmem
  | cons p m ih =>
    by_cases h : p.1 = k
    · have hp : p = (k, v) := huniq p (List.mem_cons_self p m) h
      subst hp
      rw [List.filter_cons, if_pos hkeep]
      simp [lookupKey]
    · have hb : (p.1 == k) = false := by simp [h]
      have hmem' : (k, v) ∈ m := by
        rcases List.mem_cons.mp hmem with heq | hm
        · exact absurd (congrArg Prod.fst heq.symm) h
        · exact hm
      have huniq' : ∀ r ∈ m, r.1 = k → r = (k, v) := fun r hr =>
        huniq r (List.mem_cons_of_mem p hr)
      have ihm := ih huniq' hmem'
      rw [List.filter_cons]
      split
      · unfold lookupKey
        simp only [List.find?_cons, hb]
        exact ihm
      · exact ihm

lemma CacheService.get_expired {α : Type} {now : Nat} {c : Cache α} {key : String}
    {e : CacheEntry α} (h : lookupKey c key = some e) (hexp : now > e.expiresAt) :
    CacheService.get now c key = (none, mapDelete c key) := by
  simp only [CacheService.get, h, if_pos hexp]

lemma CacheService.get_live {α : Type} {now : Nat} {c : Cache α} {key : String}
    {e : CacheEntry α} (h : lookupKey c key = some e) (hexp : ¬ now > e.expiresAt) :
    CacheService.get now c key = (some e.data, c) := by
  simp only [CacheService.get, h, if_neg hexp]

lemma CacheService.get_missing {α : Type} {now : Nat} {c : Cache α} {key : String}
    (h : lookupKey c key = none) :
    CacheService.get now c key = (none, c) := by
  simp only [CacheService.get, h]

/-- C3: an entry is never returned once `now > expiresAt`: an expired
entry is deleted on lookup; the construction-time sweep leaves only
unexpired entries before first use; and `set(k, v, 1)` followed by a
wait of more than one second (1000 ms) makes `get(k)` null and the
subsequent `has(k)` false. -/
theorem C3_cache_expiry_invariant :
    (∀ (α : Type) (now : Nat) (c : Cache α) (key : String) (e : CacheEntry α),
      lookupKey c key = some e → now > e.expiresAt →
      (CacheService.get now c key).1 = none ∧
      lookupKey (CacheService.get now c key).2 key = none) ∧
    (∀ (α : Type) (now : Nat) (stored : Cache α) (p : String × CacheEntry α),
      p ∈ loadCacheFromStorage now stored → now ≤ p.2.expiresAt) ∧
    (∀ (α : Type) (t t' d : Nat) (c : Cache α) (k : String) (v : α),
      t' > t + 1000 →
      (CacheService.get t' (CacheService.set t d c k v (some 1)) k).1 = none ∧
      (CacheService.has t'
        (CacheService.get t' (CacheService.set t d c k v (some 1)) k).2 k).1 = false) := by
  refine ⟨?_, ?_, ?_⟩
  · intro α now c key e hlook hexp
    rw [CacheService.get_expired hlook hexp]
    exact ⟨rfl, lookupKey_mapDelete c key⟩
  · intro α now stored p hmem
    rcases List.mem_filter.mp hmem with ⟨_, hkeep⟩
    simp only [Bool.not_eq_eq_eq_not, Bool.not_true, decide_eq_false_iff_not] at hkeep
    omega
  · intro α t t' d c k v hgt
    have he : effectiveExpiration (some 1) d = 1 := rfl
    have hlook :
        lookupKey (CacheService.set t d c k v (some 1)) k =
          some ⟨v, t, t + effectiveExpiration (some 1) d * 1000⟩ := by
      unfold CacheService.set
      exact lookupKey_mapSet_self c k _
    have hexp :
        t' > (⟨v, t, t + effectiveExpiration (some 1) d * 1000⟩ : CacheEntry α).expiresAt := by
      show t' > t + effectiveExpiration (some 1) d * 1000
      rw [he]
      omega
    have hpair := CacheService.get_expired hlook hexp
    refine ⟨by rw [hpair], ?_⟩
    rw [hpair]
    rw [CacheService.has,
      CacheService.get_missing (lookupKey_mapDelete (CacheService.set t d c k v (some 1)) k)]
    rfl

/-- Witness for C3 at a concrete instance: a second-long TTL entry set
at time 0 is gone at time 1001. -/
theorem C3_cache_expiry_invariant_witness :
    (CacheService.get 1001 (CacheService.set 0 3600 ([] : Cache Nat) "k" 0 (some 1)) "k").1 = none ∧
    (CacheService.has 1001
      (CacheService.get 1001 (CacheService.set 0 3600 ([] : Cache Nat) "k" 0 (some 1)) "k").2 "k").1 = false :=
  C3_cache_expiry_invariant.2.2 Nat 0 1001 3600 [] "k" 0 (by decide)

/-- C4: before the entry's expiry, `get` after `set` returns exactly
the stored value, also across a persist-to-storage and reload cycle,
and `has(k)` is true exactly when `get(k)` is not null. -/
theorem C4_cache_roundtrip :
    (∀ (α : Type) (now now2 d : Nat) (c : Cache α) (k : String) (v : α)
      (expSec : Option Nat),
      now2 ≤ now + effectiveExpiration expSec d * 1000 →
      (CacheService.get now2 (CacheService.set now d c k v expSec) k).1 = some v ∧
      (CacheService.get now2
        (loadCacheFromStorage now2
          (saveCacheToStorage (CacheService.set now d c k v expSec))) k).1 = some v) ∧
    (∀ (α : Type) (now : Nat) (c : Cache α) (key : String),
      ((CacheService.has now c key).1 = true ↔ (CacheService.get now c key).1 ≠ none)) := by
  constructor
  · intro α now now2 d c k v expSec hle
    have hnot : ¬ now2 > (⟨v, now, now + effectiveExpiration expSec d * 1000⟩ :
        CacheEntry α).expiresAt := by
      simpa using hle
    constructor
    · have hlook :
          lookupKey (CacheService.set now d c k v expSec) k =
            some ⟨v, now, now + effectiveExpiration expSec d * 1000⟩ := by
        unfold CacheService.set
        exact lookupKey_mapSet_self c k _
      rw [CacheService.get_live hlook hnot]
    · have hkeep :
          (fun p : String × CacheEntry α => !(now2 > p.2.expiresAt))
            (k, ⟨v, now, now + effectiveExpiration expSec d * 1000⟩) = true := by
        simpa using hnot
      have hlook :
          lookupKey (loadCacheFromStorage now2
            (saveCacheToStorage (CacheService.set now d c k v expSec))) k =
            some ⟨v, now, now + effectiveExpiration expSec d * 1000⟩ := by
        unfold loadCacheFromStorage saveCacheToStorage cleanExpiredEntries CacheService.set
        exact lookupKey_filter_of_unique _ _ _ _
          (mem_mapSet_key c k _) (mem_mapSet_self c k _) hkeep
      rw [CacheService.get_live hlook hnot]
  · intro α now c key
    simp only [CacheService.has]
    exact Option.isSome_iff_ne_none

/-- Witness for C4 at a concrete instance: value 7 set at time 0 with
a one-second TTL is still returned at time 500, also after a
persist/reload cycle. -/
theorem C4_cache_roundtrip_witness :
    (CacheService.get 500 (CacheService.set 0 3600 ([] : Cache Nat) "k" 7 (some 1)) "k").1 = some 7 ∧
    (CacheService.get 500
      (loadCacheFromStorage 500
        (saveCacheToStorage (CacheService.set 0 3600 ([] : Cache Nat) "k" 7 (some 1)))) "k").1 = some 7 :=
  C4_cache_roundtrip.1 Nat 0 500 3600 [] "k" 7 (some 1) (by decide)

/-- C10: `set` with `expirationSeconds = 0` stores with the configured
default TTL (3600 s when the setting is absent), exactly as an omitted
argument does — 0 is falsy in `expirationSeconds || defaultExpiration`,
so a zero-second TTL cannot be requested. -/
theorem C10_set_zero_ttl_uses_default :
    ∀ (α : Type) (now d : Nat) (c : Cache α) (k : String) (v : α),
      CacheService.set now d c k v (some 0) = CacheService.set now d c k v none ∧
      lookupKey (CacheService.set now d c k v (some 0)) k =
        some ⟨v, now, now + d * 1000⟩ := by
  intro α now d c k v
  refine ⟨rfl, ?_⟩
  exact lookupKey_mapSet_self c k _

/-- The parsed manifest, restricted to the two dependency sections the
accessor mutates (all other top-level keys pass through the
parse/serialize cycle unchanged and are omitted here).  A section is
`none` when the key is absent from the file. -/
structure Pubspec where
  dependencies : Option (List (String × String))
  dev_dependencies : Option (List (String × String))
deriving DecidableEq

/-- The regex replace `/^[\^~]/` of `formatVersion`: at most one
leading caret or tilde is removed. -/
def stripCaretTilde (version : String) : String :=
  match version.data with
  | c :: rest => if c == '^' || c == '~' then String.mk rest else version
  | [] => version

/-- `WorkspaceService.formatVersion(version)`: empty input falls back
to `^1.0.0`; otherwise one leading `^` or `~` is stripped and `^` is
prepended. -/
def formatVersion (version : String) : String :=
  if version == "" then "^1.0.0"
  else "^" ++ stripCaretTilde version

/-- The dependency section selected by the `isDev` flag. -/
def sectionOf (pubspec : Pubspec) (isDev : Bool) : Option (List (String × String)) :=
  if isDev then pubspec.dev_dependencies else pubspec.dependencies

/-- `WorkspaceService.addDependency(projectPath, packageName, version,
isDev)`: a missing manifest reports failure and changes nothing;
otherwise the target section is created when absent, the key is set to
`formatVersion(version)`, the file is rewritten and success is
reported.  (The post-write `pub get` and project refresh are external
side effects.) -/
def addDependency (manifest : Option Pubspec) (packageName version : String)
    (isDev : Bool) : Bool × Option Pubspec :=
  match manifest with
  | none => (false, none)
  | some pubspec =>
    if isDev then
      (true,
        some { pubspec with
               dev_dependencies := some
                 (mapSet (pubspec.dev_dependencies.getD []) packageName (formatVersion version)) })
    else
      (true,
        some { pubspec with
               dependencies := some
                 (mapSet (pubspec.dependencies.getD []) packageName (formatVersion version)) })

/-- `WorkspaceService.updateDependency(projectPath, packageName,
newVersion, isDev)`: literally a call to `addDependency` with the same
arguments. -/
def updateDependency (manifest : Option Pubspec) (packageName newVersion : String)
    (isDev : Bool) : Bool × Option Pubspec :=
  addDependency manifest packageName newVersion isDev

/-- `DependencyInfo` as produced by
`WorkspaceService.extractDependencies`. -/
structure DependencyInfo where
  name : String
  version : String
  isDev : Bool
  isOutdated : Bool
  latestVersion : Option String
deriving DecidableEq

/-- `WorkspaceService.extractDependencies(pubspec)`: regular entries
(skipping empty names, `flutter` and empty versions) followed by dev
entries (skipping `flutter_test`), each with the outdated flag derived
from the registry's latest version (the `latestOf` oracle). -/
def extractDependencies (pubspec : Pubspec) (latestOf : String → Option String) :
    List DependencyInfo :=
  ((pubspec.dependencies.getD []).filterMap fun p =>
    if p.1 == "" || p.1 == "flutter" || p.2 == "" then none
    else some { name := p.1, version := p.2, isDev := false,
                isOutdated := (match latestOf p.1 with
                  | some lv => isVersionOutdated p.2 lv
                  | none => false),
                latestVersion := latestOf p.1 })
  ++ ((pubspec.dev_dependencies.getD []).filterMap fun p =>
    if p.1 == "" || p.1 == "flutter_test" || p.2 == "" then none
    else some { name := p.1, version := p.2, isDev := true,
                isOutdated := (match latestOf p.1 with
                  | some lv => isVersionOutdated p.2 lv
                  | none => false),
                latestVersion := latestOf p.1 })

/-- C6: `updateDependency` returns the same result and has the same
effect on the manifest as `addDependency` with the same arguments —
overwrite semantics, no diff or merge. -/
theorem C6_updateDependency_is_addDependency :
    ∀ (manifest : Option Pubspec) (packageName version : String) (isDev : Bool),
      updateDependency manifest packageName version isDev =
        addDependency manifest packageName version isDev :=
  fun _ _ _ _ => rfl

/-- C7 counterexample: the claim's formula (strip a leading caret or
tilde, prepend a caret) fails on the empty version string — the code
writes the fallback `^1.0.0`, not `^`. -/
theorem C7_counterexample_empty_version :
    formatVersion "" = "^1.0.0" ∧
    "^" ++ stripCaretTilde "" = "^" ∧
    ("^1.0.0" : String) ≠ "^" ∧
    (addDependency (some ⟨some [], some []⟩) "pkg" "" false).2 =
      some ⟨some [("pkg", "^1.0.0")], some []⟩ := by
  exact ⟨by decide, by decide, by decide, by decide⟩

/-- C7 amended: for every nonempty version string, the value written
into the selected section is the input with at most one leading `^` or
`~` stripped and `^` prepended (the empty string is written as the
`^1.0.0` fallback); every written constraint begins with `^`; and
re-reading the manifest after writing `^1.0.0` yields a DependencyInfo
whose version equals `^1.0.0`. -/
theorem C7_version_normalization :
    (∀ (pubspec : Pubspec) (packageName version : String) (isDev : Bool),
      lookupKey
        ((sectionOf ((addDependency (some pubspec) packageName version isDev).2.getD pubspec)
          isDev).getD []) packageName = some (formatVersion version)) ∧
    (∀ version : String, version ≠ "" →
      formatVersion version = "^" ++ stripCaretTilde version) ∧
    (∀ version : String, (formatVersion version).data.head? = some '^') ∧
    extractDependencies
      ((addDependency (some ⟨some [], some []⟩) "http" "^1.0.0" false).2.getD
        ⟨some [], some []⟩) (fun _ => none) =
      [⟨"http", "^1.0.0", false, false, none⟩] := by
  refine ⟨?_, ?_, ?_, by decide⟩
  · intro pubspec packageName version isDev
    cases isDev
    · simp only [addDependency, sectionOf, Bool.false_eq_true, if_false, Option.getD_some]
      exact lookupKey_mapSet_self _ _ _
    · simp only [addDependency, sectionOf, if_true, Option.getD_some]
      exact lookupKey_mapSet_self _ _ _
  · intro version h
    rw [formatVersion, if_neg (by simpa using h)]
  · intro version
    by_cases h : version = ""
    · subst h
      rfl
    · rw [formatVersion, if_neg (by simpa using h), String.data_append]
      rfl

/-- Witness for C7 at a concrete instance: writing `~2.1.0` stores
`^2.1.0` (one tilde stripped, caret prepended). -/
theorem C7_version_normalization_witness :
    lookupKey
      ((sectionOf ((addDependency (some (⟨some [], some []⟩ : Pubspec)) "http" "~2.1.0" false).2.getD
        ⟨some [], some []⟩) false).getD []) "http" = some (formatVersion "~2.1.0") ∧
    formatVersion "~2.1.0" = "^" ++ stripCaretTilde "~2.1.0" :=
  ⟨C7_version_normalization.1 ⟨some [], some []⟩ "http" "~2.1.0" false,
   C7_version_normalization.2.1 "~2.1.0" (by decide)⟩

/-- Failure of an HTTP request: an error status, a network failure or
the 10-second timeout.  `searchPackages` and `getPackageDetails` catch
all of these alike. -/
inductive HttpError where
  | status (code : Nat)
  | network
  | timeout
deriving DecidableEq

/-- Score block of a pub.dev search hit.  The floating-point
`popularityScore` (0..1 in the wire format) is modelled already scaled
and rounded to its 0..100 integer percentage, since the claims never
touch the rounding itself. -/
structure PubScore where
  grantedPoints : Option Nat
  likeCount : Option Nat
  popularityScore : Option Nat
deriving DecidableEq

/-- One raw hit of the search endpoint. -/
structure PubPackageSearchResult where
  package : String
  description : Option String
  tags : Option (List String)
  score : Option PubScore
deriving DecidableEq

/-- The pubspec snippet nested in a package-details record, with the
`environment` map flattened into its two read fields. -/
structure PubPackageDetails where
  name : String
  latestVersion : String
  description : Option String
  homepage : Option String
  repository : Option String
  envSdk : Option String
  envFlutter : Option String
deriving DecidableEq

/-- The converted `PubPackage` record returned by `searchPackages`. -/
structure PubPackage where
  name : String
  version : String
  description : String
  homepage : Option String
  repository : Option String
  popularity : Nat
  likes : Nat
  points : Nat
  tags : List String
  isFlutterPackage : Bool
  isDartPackage : Bool
deriving DecidableEq

/-- JS truthiness of an optional string (`Boolean(x)` / `x || y`
selection): present and nonempty. -/
def jsTruthyStr (o : Option String) : Bool :=
  match o with
  | some s => !(s == "")
  | none => false

/-- JS `a || b || ''` over optional strings. -/
def jsOrStr (a b : Option String) : String :=
  if jsTruthyStr a then a.getD ""
  else if jsTruthyStr b then b.getD "" else ""

/-- `PubApiService.isFlutterPackage(tags, details)`. -/
def isFlutterPackage (tags : List String) (details : PubPackageDetails) : Bool :=
  tags.contains "flutter" || tags.contains "flutter-package"
    || jsTruthyStr details.envFlutter

/-- `PubApiService.isDartPackage(tags, details)`. -/
def isDartPackage (tags : List String) (details : PubPackageDetails) : Bool :=
  tags.contains "dart" || tags.contains "dart-package"
    || jsTruthyStr details.envSdk

/-- One step of `convertSearchResultsToPackages`: the per-hit details
fetch (the `details` oracle, itself fail-soft) converts a search hit
into a `PubPackage`; hits whose details are unavailable are skipped. -/
def convertSearchResult (details : String → Option PubPackageDetails)
    (result : PubPackageSearchResult) : Option PubPackage :=
  (details result.package).map fun d =>
    { name := result.package,
      version := d.latestVersion,
      description := jsOrStr result.description d.description,
      homepage := d.homepage,
      repository := d.repository,
      popularity := ((result.score.bind PubScore.popularityScore).getD 0),
      likes := ((result.score.bind PubScore.likeCount).getD 0),
      points := ((result.score.bind PubScore.grantedPoints).getD 0),
      tags := result.tags.getD [],
      isFlutterPackage := isFlutterPackage (result.tags.getD []) d,
      isDartPackage := isDartPackage (result.tags.getD []) d }

/-- `PubApiService.searchPackages(query, page)` with the cache state
and the single HTTP attempt made explicit: a cache hit short-circuits;
otherwise the one request either succeeds (its hits are converted) or
fails, and the whole `try` block degrades to the empty list. -/
def searchPackages (cacheEnabled : Bool) (cached : Option (List PubPackage))
    (httpResult : Except HttpError (List PubPackageSearchResult))
    (details : String → Option PubPackageDetails) : List PubPackage :=
  if cacheEnabled && cached.isSome then cached.getD []
  else
    match httpResult with
    | Except.ok results => results.filterMap (convertSearchResult details)
    | Except.error _ => []

/-- `PubApiService.getPackageDetails(packageName)` with the cache state
and the single HTTP attempt made explicit: a cache hit
short-circuits; otherwise the one request either succeeds or fails,
and the `catch` returns null. -/
def getPackageDetails (cacheEnabled : Bool) (cached : Option PubPackageDetails)
    (httpResult : Except HttpError PubPackageDetails) : Option PubPackageDetails :=
  if cacheEnabled && cached.isSome then cached
  else
    match httpResult with
    | Except.ok d => some d
    | Except.error _ => none

/-- C9: whenever the single HTTP request actually issued fails (any
error kind), `searchPackages` returns the empty list and
`getPackageDetails` returns null; both are total functions of the one
request's outcome (no retry, no propagated exception) and the result
does not distinguish one failure kind from another. -/
theorem C9_fail_soft :
    (∀ (e : HttpError) (cacheEnabled : Bool) (cached : Option (List PubPackage))
      (details : String → Option PubPackageDetails),
      (cacheEnabled && cached.isSome) = false →
      searchPackages cacheEnabled cached (Except.error e) details = []) ∧
    (∀ (e : HttpError) (cacheEnabled : Bool) (cached : Option PubPackageDetails),
      (cacheEnabled && cached.isSome) = false →
      getPackageDetails cacheEnabled cached (Except.error e) = none) ∧
    (∀ (e e' : HttpError) (cacheEnabled : Bool)
      (details : String → Option PubPackageDetails),
      searchPackages cacheEnabled none (Except.error e) details =
        searchPackages cacheEnabled none (Except.error e') details ∧
      getPackageDetails cacheEnabled none (Except.error e) =
        getPackageDetails cacheEnabled none (Except.error e')) := by
  refine ⟨?_, ?_, ?_⟩
  · intro e cacheEnabled cached details h
    simp only [searchPackages, h, Bool.false_eq_true, if_false]
  · intro e cacheEnabled cached h
    simp only [getPackageDetails, h, Bool.false_eq_true, if_false]
  · intro e e' cacheEnabled details
    cases cacheEnabled <;> exact ⟨rfl, rfl⟩

/-- Witness for C9 at a concrete instance: a 404 and a network error
from the registry both yield the empty list / null on a cache miss. -/
theorem C9_fail_soft_witness :
    searchPackages true none (Except.error (HttpError.status 404)) (fun _ => none) = [] ∧
    getPackageDetails true none (Except.error HttpError.network) = none ∧
    searchPackages true none (Except.error (HttpError.status 404)) (fun _ => none) =
      searchPackages true none (Except.error HttpError.network) (fun _ => none) :=
  ⟨C9_fail_soft.1 (HttpError.status 404) true none (fun _ => none) (by decide),
   C9_fail_soft.2.1 HttpError.network true none (by decide),
   (C9_fail_soft.2.2 (HttpError.status 404) HttpError.network true (fun _ => none)).1⟩

/-- JS `line.search(/\S/)`: index of the first non-whitespace
character, or -1 when the line is blank. -/
def jsSearchNonSpace (line : List Char) : Int :=
  match line.findIdx? (fun c => !jsIsSpace c) with
  | some i => (i : Int)
  | none => -1

/-- JS `trimmed.endsWith(':')`. -/
def endsWithColon (cs : List Char) : Bool := cs.getLast? == some ':'

/-- The scan loop of `PubspecAnalyzer.findPackageRange`: lines are
visited in order with the running state (current index, whether the
section header has been seen, the header's indentation).  A line whose
trimmed text equals the section header (re-)enters the section; inside
the section, a line at same-or-lower indentation ending in a colon
breaks the scan (null); a line whose trimmed text starts with
`name:` returns the range (line index, indentation, line length). -/
def findRangeGo (name sectionName : List Char) :
    List (List Char) → Nat → Bool → Int → Option (Nat × Int × Nat)
  | [], _, _, _ => none
  | line :: rest, i, inSection, sectionIndent =>
    if jsTrimList line == sectionName ++ [':'] then
      findRangeGo name sectionName rest (i + 1) true (jsSearchNonSpace line)
    else if inSection then
      if jsSearchNonSpace line ≤ sectionIndent && endsWithColon (jsTrimList line) then
        none
      else if (name ++ [':']).isPrefixOf (jsTrimList line) then
        some (i, jsSearchNonSpace line, line.length)
      else findRangeGo name sectionName rest (i + 1) inSection sectionIndent
    else findRangeGo name sectionName rest (i + 1) inSection sectionIndent

/-- `PubspecAnalyzer.findPackageRange(document, packageName,
sectionName)`: the document split on newlines, scanned from line 0
with no section seen and header indentation 0.  The result models
`vscode.Range` as (line index, start column, end column). -/
def findPackageRange (text name sectionName : String) : Option (Nat × Int × Nat) :=
  findRangeGo name.data sectionName.data (splitOnChar '\n' text.data) 0 false 0

/-- The scan loop as the claim words it, differing from the code in
one place: a line only matches when its indentation is strictly
greater than the section header's. -/
def claimFindRangeGo (name sectionName : List Char) :
    List (List Char) → Nat → Bool → Int → Option (Nat × Int × Nat)
  | [], _, _, _ => none
  | line :: rest, i, inSection, sectionIndent =>
    if jsTrimList line == sectionName ++ [':'] then
      claimFindRangeGo name sectionName rest (i + 1) true (jsSearchNonSpace line)
    else if inSection then
      if jsSearchNonSpace line ≤ sectionIndent && endsWithColon (jsTrimList line) then
        none
      else if decide (sectionIndent < jsSearchNonSpace line)
          && (name ++ [':']).isPrefixOf (jsTrimList line) then
        some (i, jsSearchNonSpace line, line.length)
      else claimFindRangeGo name sectionName rest (i + 1) inSection sectionIndent
    else claimFindRangeGo name sectionName rest (i + 1) inSection sectionIndent

/-- `findPackageRange` as described by the claim, requiring the
matched line to be indented strictly deeper than the header. -/
def claimFindPackageRange (text name sectionName : String) : Option (Nat × Int × Nat) :=
  claimFindRangeGo name.data sectionName.data (splitOnChar '\n' text.data) 0 false 0

/-- C5 counterexample: on a manifest whose package line sits at the
same indentation as the section header, the code still returns that
line, while the claim's algorithm (match only at strictly greater
indentation) returns no match — the code never checks the matched
line's indentation. -/
theorem C5_counterexample_indent_not_checked :
    findPackageRange "dependencies:\nfoo: 1.0.0" "foo" "dependencies" = some (1, 0, 10) ∧
    claimFindPackageRange "dependencies:\nfoo: 1.0.0" "foo" "dependencies" = none := by
  exact ⟨by decide, by decide⟩

lemma findRangeGo_sound (name sectionName : List Char) :
    ∀ (lines : List (List Char)) (i : Nat) (inSection : Bool) (sectionIndent : Int)
      (idx : Nat) (ind : Int) (len : Nat),
      findRangeGo name sectionName lines i inSection sectionIndent = some (idx, ind, len) →
      i ≤ idx ∧ idx - i < lines.length ∧
      (name ++ [':']).isPrefixOf (jsTrimList (lines.getD (idx - i) [])) = true ∧
      ind = jsSearchNonSpace (lines.getD (idx - i) []) ∧
      len = (lines.getD (idx - i) []).length := by
  intro lines
  induction lines with
  | nil =>
    intro i inSection sectionIndent idx ind len h
    simp [findRangeGo] at h
  | cons line rest ih =>
    intro i inSection sectionIndent idx ind len h
    simp only [findRangeGo] at h
    have step :
        ∀ (inS : Bool) (sInd : Int),
          findRangeGo name sectionName rest (i + 1) inS sInd = some (idx, ind, len) →
          i ≤ idx ∧ idx - i < (line :: rest).length ∧
          (name ++ [':']).isPrefixOf (jsTrimList ((line :: rest).getD (idx - i) [])) = true ∧
          ind = jsSearchNonSpace ((line :: rest).getD (idx - i) []) ∧
          len = ((line :: rest).getD (idx - i) []).length := by
      intro inS sInd hrec
      obtain ⟨h1, h2, h3, h4, h5⟩ := ih (i + 1) inS sInd idx ind len hrec
      have hshift : idx - i = (idx - (i + 1)) + 1 := by omega
      rw [hshift]
      rw [List.getD_cons_succ]
      exact ⟨by omega, by simpa [hshift] using by omega, h3, h4, h5⟩
    split at h
    · exact step true (jsSearchNonSpace line) h
    · split at h
      · split at h
        · exact absurd h (by simp)
        · split at h
          · rename_i hpre
            have h' : i = idx ∧ jsSearchNonSpace line = ind ∧ line.length = len := by
              simpa [Prod.ext_iff] using h
            obtain ⟨rfl, rfl, rfl⟩ := h'
            refine ⟨Nat.le_refl i, by simp, ?_, ?_, ?_⟩
            · simpa [Nat.sub_self] using hpre
            · simp [Nat.sub_self]
            · simp [Nat.sub_self]
          · exact step inSection sectionIndent h
      · exact step inSection sectionIndent h

/-- C5 amended: `findPackageRange` scans for the section header,
tracks its indentation, stops early at a same-or-lower-indentation
line ending in a colon, and returns the range of the first line after
the header whose trimmed text begins with `name:` — without requiring
that line's indentation to exceed the header's.  Every returned range
points at such a line with that line's indentation and length; and on
the two-section example manifest `foo` is found only under
`dependencies`, not under `dev_dependencies`. -/
theorem C5_findPackageRange_line_scan :
    (∀ (text name sectionName : String) (i : Nat) (ind : Int) (len : Nat),
      findPackageRange text name sectionName = some (i, ind, len) →
      i < (splitOnChar '\n' text.data).length ∧
      (name.data ++ [':']).isPrefixOf
        (jsTrimList ((splitOnChar '\n' text.data).getD i [])) = true ∧
      ind = jsSearchNonSpace ((splitOnChar '\n' text.data).getD i []) ∧
      len = ((splitOnChar '\n' text.data).getD i []).length) ∧
    findPackageRange "dependencies:\n  foo: ^1.0.0\ndev_dependencies:\n  bar: ^2.0.0"
      "foo" "dependencies" = some (1, 2, 13) ∧
    findPackageRange "dependencies:\n  foo: ^1.0.0\ndev_dependencies:\n  bar: ^2.0.0"
      "foo" "dev_dependencies" = none := by
  refine ⟨?_, by decide, by decide⟩
  intro text name sectionName i ind len h
  obtain ⟨_, h2, h3, h4, h5⟩ := findRangeGo_sound name.data sectionName.data
    (splitOnChar '\n' text.data) 0 false 0 i ind len h
  rw [Nat.sub_zero] at h2 h3 h4 h5
  exact ⟨h2, h3, h4, h5⟩

/-- Witness for C5 at a concrete instance: the range returned for
`foo` in `dependencies` points at line 1, whose trimmed text begins
with `foo:`, at indentation 2 and length 13. -/
theorem C5_findPackageRange_line_scan_witness :
    1 < (splitOnChar '\n'
      ("dependencies:\n  foo: ^1.0.0\ndev_dependencies:\n  bar: ^2.0.0" : String).data).length ∧
    ("foo".data ++ [':']).isPrefixOf
      (jsTrimList ((splitOnChar '\n'
        ("dependencies:\n  foo: ^1.0.0\ndev_dependencies:\n  bar: ^2.0.0" : String).data).getD 1 [])) = true ∧
    (2 : Int) = jsSearchNonSpace ((splitOnChar '\n'
      ("dependencies:\n  foo: ^1.0.0\ndev_dependencies:\n  bar: ^2.0.0" : String).data).getD 1 []) ∧
    13 = ((splitOnChar '\n'
      ("dependencies:\n  foo: ^1.0.0\ndev_dependencies:\n  bar: ^2.0.0" : String).data).getD 1 []).length :=
  C5_findPackageRange_line_scan.1
    "dependencies:\n  foo: ^1.0.0\ndev_dependencies:\n  bar: ^2.0.0"
    "foo" "dependencies" 1 2 13 (by decide)
